import Mathlib

/-!
Verification development for the template-replace-stream engine
(source file: src/index.ts, class TemplateReplaceStream).

The engine is a byte-level pattern-matching state machine over a pending
buffer (the private field named stack in the source). We embed it shallowly:

* bytes are Nat, buffers are List Nat;
* the JS number fields stackIndex and matchCount are modelled as Int,
  because JS arithmetic lets stackIndex become negative (releaseStack
  subtracts the released length unconditionally);
* Buffer.indexOf, Buffer.subarray follow the Node semantics for negative
  and out-of-range arguments (negative offsets count from the end, ranges
  are clamped);
* a resolver value is either a JS string or a Buffer, because the code
  tests the value for truthiness (an empty string is falsy, a Buffer is
  always truthy) before substituting; stream-valued and promise-valued
  resolutions are outside the modelled fragment (the claims under study
  concern pure, synchronous, byte-sequence resolvers);
* variableBuffer.toString().trim() is modelled at byte level by trimming
  the ASCII whitespace bytes 9, 10, 11, 12, 13, 32 from both ends; for the
  ASCII inputs used here this agrees with the UTF-8 decode in the source;
* the while loop of the method _transform is not always terminating (this
  development exhibits reachable cycles), so it is modelled with explicit
  fuel; the outcome hung means the loop did not finish within the fuel.
-/

namespace TemplateReplace

/-- The enum State of the source (SEARCHING_START_PATTERN,
PROCESSING_VARIABLE, SEARCHING_END_PATTERN). -/
inductive MachineState where
  | SEARCHING_START_PATTERN
  | PROCESSING_VARIABLE
  | SEARCHING_END_PATTERN
deriving DecidableEq

/-- The configuration options of the stream that influence byte-level
behaviour: throwOnUnmatchedTemplate, maxVariableNameLength, startPattern,
endPattern. The max length is Int because the source validates that the
user-supplied number is greater than 0. The log flag is omitted: it only
produces debug output. -/
structure Options where
  throwOnUnmatchedTemplate : Bool
  maxVariableNameLength : Int
  startPattern : List Nat
  endPattern : List Nat
deriving DecidableEq

/-- A synchronous StringContent value returned by a resolver: a JS string
or a Buffer, each carrying its bytes. The distinction matters because the
source checks the value for truthiness: an empty string is falsy while a
Buffer is always truthy. -/
inductive StringContent where
  | str (bytes : List Nat)
  | buf (bytes : List Nat)
deriving DecidableEq

/-- The method toBuffer of the source: both forms yield their bytes. -/
def StringContent.toBuffer : StringContent → List Nat
  | .str bs => bs
  | .buf bs => bs

/-- JS truthiness of a StringContent value. -/
def StringContent.truthy : StringContent → Bool
  | .str bs => !bs.isEmpty
  | .buf _ => true

/-- A VariableResolver restricted to synchronous string-or-buffer results;
none models the JS value undefined. The argument is the trimmed
variable-name byte sequence. -/
def Resolver := List Nat → Option StringContent

/-- The mutable per-instance state of TemplateReplaceStream: the fields
_stack, _state, _matchCount, _stackIndex. -/
structure Engine where
  stack : List Nat
  state : MachineState
  matchCount : Int
  stackIndex : Int
deriving DecidableEq

/-- Field initializers of the class: empty stack, SEARCHING_START_PATTERN,
zero counters. -/
def initialEngine : Engine :=
  { stack := [], state := .SEARCHING_START_PATTERN, matchCount := 0, stackIndex := 0 }

/-- The errors the engine can raise while streaming (the Error values
thrown inside _transform): the too-long error of findVariableEnd and the
not-found error of getValueOfVariable, which carries the trimmed name. -/
inductive StreamError where
  | variableNameTooLong
  | unresolvedVariable (name : List Nat)
deriving DecidableEq

/-- The errors the constructor can raise (each corresponds to one of the
three validation throws). -/
inductive ConfigError where
  | nonPositiveMaxLength
  | emptyStartPattern
  | emptyEndPattern
deriving DecidableEq

/-- JS indexing stack at an Int position: undefined outside the range. -/
def byteAt (l : List Nat) (i : Int) : Option Nat :=
  if 0 ≤ i then l[i.toNat]? else none

/-- First position of byte b in l at or after position i0, as Buffer.indexOf:
a negative offset counts from the end of the buffer (clamped at 0) and the
result is -1 when the byte does not occur. -/
def scanFor (b : Nat) : List Nat → Option Nat
  | [] => none
  | x :: xs => if x = b then some 0 else (scanFor b xs).map (· + 1)

def indexOfFrom (l : List Nat) (b : Nat) (i0 : Int) : Int :=
  let start : Nat := if i0 < 0 then (i0 + l.length).toNat else i0.toNat
  match scanFor b (l.drop start) with
  | none => -1
  | some j => ((start + j : Nat) : Int)

/-- Buffer.subarray semantics: negative bounds count from the end, bounds
are clamped to the buffer, and an empty slice results when the clamped
start is at or past the clamped end. -/
def jsClamp (len : Nat) (i : Int) : Nat :=
  if i < 0 then (i + len).toNat else min i.toNat len

def subarray (l : List Nat) (s e : Int) : List Nat :=
  (l.take (jsClamp l.length e)).drop (jsClamp l.length s)

def subarrayFrom (l : List Nat) (s : Int) : List Nat :=
  subarray l s l.length

/-- The ASCII whitespace bytes removed by String.prototype.trim. -/
def isJsSpace (b : Nat) : Bool :=
  b == 9 || b == 10 || b == 11 || b == 12 || b == 13 || b == 32

/-- Byte-level model of variableBuffer.toString().trim(). -/
def trimBytes (l : List Nat) : List Nat :=
  ((l.dropWhile isJsSpace).reverse.dropWhile isJsSpace).reverse

/-- The private method releaseStack(index): pushes the first index bytes of
the stack downstream, keeps the rest, and subtracts index from stackIndex.
Returns the new engine and the pushed bytes. With index ≤ 0 nothing
happens; note that the subtraction is unconditional otherwise, which can
drive stackIndex negative. -/
def releaseStack (e : Engine) (index : Int) : Engine × List Nat :=
  if index ≤ 0 then (e, [])
  else if index = (e.stack.length : Int) then
    ({ e with stack := [], stackIndex := e.stackIndex - index }, e.stack)
  else
    ({ e with stack := e.stack.drop index.toNat, stackIndex := e.stackIndex - index },
      e.stack.take index.toNat)

/-- The for loop shared by findStartPattern: starting at matchCount mc and
position idx, compare stack bytes against pattern bytes one at a time.
Returns the updated (matchCount, stackIndex) and whether the loop ran to
completion (full pattern matched). The fuel k is the number of remaining
loop iterations, (pat.length - mc).toNat at the call site. An out-of-range
read yields undefined, which mismatches every pattern byte, exactly as in
JS. -/
def fspLoop (pat stack : List Nat) (mc idx : Int) : Nat → Int × Int × Bool
  | 0 => (mc, idx, true)
  | k + 1 =>
    if idx ≥ (stack.length : Int) then (mc, idx, false)
    else if byteAt stack idx = some (pat.getD mc.toNat 0) then
      fspLoop pat stack (mc + 1) (idx + 1) k
    else (0, idx, false)

/-- The private method findStartPattern: with matchCount 0, jump to the
first occurrence of the first pattern byte searching the whole stack (on
no occurrence set stackIndex to the stack length and return); then verify
the remaining pattern bytes one at a time, switching to
PROCESSING_VARIABLE on a full match. -/
def findStartPattern (cfg : Options) (e : Engine) : Engine :=
  let pat := cfg.startPattern
  let e1opt : Option Engine :=
    if e.matchCount = 0 then
      let i := indexOfFrom e.stack (pat.getD 0 0) 0
      if i = -1 then none
      else some { e with matchCount := 1, stackIndex := i + 1 }
    else some e
  match e1opt with
  | none => { e with stackIndex := (e.stack.length : Int) }
  | some e1 =>
    match fspLoop pat e1.stack e1.matchCount e1.stackIndex
        (((pat.length : Int) - e1.matchCount).toNat) with
    | (mc, idx, true) =>
      { e1 with matchCount := mc, stackIndex := idx, state := .PROCESSING_VARIABLE }
    | (mc, idx, false) =>
      { e1 with matchCount := mc, stackIndex := idx }

/-- Result of one body of the while loop in _transform: either continue
with an updated engine, having pushed some output bytes, or abort with a
thrown error (output already pushed stays delivered). -/
inductive StepOut where
  | cont (e : Engine) (out : List Nat)
  | fail (err : StreamError) (out : List Nat)
deriving DecidableEq

/-- The private method findVariableEnd: search for the first byte of the
end pattern and of the start pattern from stackIndex. When neither occurs,
accumulate the scanned length into matchCount and either wait for more
data or, at the configured maximum, abandon (throw under
throwOnUnmatchedTemplate, otherwise release the whole stack). Otherwise
branch exactly as the source does on
(nextStartIndex === -1 || nextStartIndex > nextEndIndex). -/
def findVariableEnd (cfg : Options) (e : Engine) : StepOut :=
  let nextEnd := indexOfFrom e.stack (cfg.endPattern.getD 0 0) e.stackIndex
  let nextStart := indexOfFrom e.stack (cfg.startPattern.getD 0 0) e.stackIndex
  if nextEnd = -1 ∧ nextStart = -1 then
    let mc := e.matchCount + ((e.stack.length : Int) - e.stackIndex)
    if mc < cfg.maxVariableNameLength then
      .cont { e with matchCount := mc, stackIndex := (e.stack.length : Int) } []
    else
      let e1 := { e with matchCount := mc, state := .SEARCHING_START_PATTERN }
      if cfg.throwOnUnmatchedTemplate then .fail .variableNameTooLong []
      else
        let r := releaseStack e1 (e1.stack.length : Int)
        .cont r.1 r.2
  else
    if nextStart = -1 ∨ nextStart > nextEnd then
      .cont { e with
                state := .SEARCHING_END_PATTERN
                stackIndex := nextEnd + 1
                matchCount := 1 } []
    else
      let e1 := { e with state := .SEARCHING_START_PATTERN, stackIndex := nextStart + 1 }
      let r := releaseStack e1 nextStart
      .cont { r.1 with matchCount := 1 } r.2

/-- The for loop of findEndPattern, with its in-loop early return (end of
stack: return false keeping matchCount and state) and its mismatch branch
(releaseStack at the current position, then the post-loop reset runs and
the method returns false). Running to completion resets matchCount and
state and returns true. -/
def fepLoop (pat : List Nat) (e : Engine) : Nat → Engine × List Nat × Bool
  | 0 => ({ e with matchCount := 0, state := .SEARCHING_START_PATTERN }, [], true)
  | k + 1 =>
    if e.stackIndex ≥ (e.stack.length : Int) then (e, [], false)
    else if byteAt e.stack e.stackIndex = some (pat.getD e.matchCount.toNat 0) then
      fepLoop pat { e with matchCount := e.matchCount + 1, stackIndex := e.stackIndex + 1 } k
    else
      let r := releaseStack e e.stackIndex
      ({ r.1 with matchCount := 0, state := .SEARCHING_START_PATTERN }, r.2, false)

/-- The private method findEndPattern. -/
def findEndPattern (cfg : Options) (e : Engine) : Engine × List Nat × Bool :=
  fepLoop cfg.endPattern e (((cfg.endPattern.length : Int) - e.matchCount).toNat)

/-- One body of the while loop of _transform: dispatch on the current
state. In SEARCHING_START_PATTERN run findStartPattern then
releaseStack(stackIndex - matchCount). In PROCESSING_VARIABLE run
findVariableEnd. In SEARCHING_END_PATTERN run findEndPattern and, on a
full end match, extract the raw name between the patterns, resolve the
trimmed name (getValueOfVariable: undefined throws under
throwOnUnmatchedTemplate, otherwise falls through) and either substitute
(truthy value: discard the matched prefix of the stack, reset stackIndex,
emit the value bytes) or release the original template text. -/
def transformStep (cfg : Options) (res : Resolver) (e : Engine) : StepOut :=
  match e.state with
  | .SEARCHING_START_PATTERN =>
    let e1 := findStartPattern cfg e
    let r := releaseStack e1 (e1.stackIndex - e1.matchCount)
    .cont r.1 r.2
  | .PROCESSING_VARIABLE => findVariableEnd cfg e
  | .SEARCHING_END_PATTERN =>
    match findEndPattern cfg e with
    | (e1, out1, true) =>
      let nameBuf := subarray e1.stack (cfg.startPattern.length : Int)
          (e1.stackIndex - (cfg.endPattern.length : Int))
      let name := trimBytes nameBuf
      match res name with
      | none =>
        if cfg.throwOnUnmatchedTemplate then .fail (.unresolvedVariable name) out1
        else
          let r := releaseStack e1 e1.stackIndex
          .cont r.1 (out1 ++ r.2)
      | some v =>
        if v.truthy then
          .cont { e1 with stack := subarrayFrom e1.stack e1.stackIndex, stackIndex := 0 }
            (out1 ++ v.toBuffer)
        else
          let r := releaseStack e1 e1.stackIndex
          .cont r.1 (out1 ++ r.2)
    | (e1, out1, false) => .cont e1 out1

/-- Result of driving the while loop of _transform: finished with a final
engine and pushed output, aborted with an error (and the output pushed
before it), or still looping when the fuel ran out. -/
inductive Outcome where
  | ok (e : Engine) (out : List Nat)
  | fail (err : StreamError) (out : List Nat)
  | hung
deriving DecidableEq

/-- Prepend already-pushed output to an outcome. -/
def Outcome.prependOut (out : List Nat) : Outcome → Outcome
  | .ok e o => .ok e (out ++ o)
  | .fail err o => .fail err (out ++ o)
  | .hung => .hung

/-- The while loop of _transform: while stackIndex < stack.length, run one
step. The loop guard is tested before consuming fuel, so fuel bounds the
number of executed loop bodies. -/
def transformLoop (cfg : Options) (res : Resolver) : Nat → Engine → Outcome
  | fuel, e =>
    if e.stackIndex < (e.stack.length : Int) then
      match fuel with
      | 0 => .hung
      | fuel' + 1 =>
        match transformStep cfg res e with
        | .cont e' out => (transformLoop cfg res fuel' e').prependOut out
        | .fail err out => .fail err out
    else .ok e []

/-- The method _transform for one incoming chunk: append the chunk to the
stack (the source assigns the chunk outright when the stack is empty,
which is byte-identical to appending) and drive the loop. -/
def processChunk (cfg : Options) (res : Resolver) (fuel : Nat) (e : Engine)
    (chunk : List Nat) : Outcome :=
  transformLoop cfg res fuel { e with stack := e.stack ++ chunk }

/-- Feed a list of chunks in order; an error or exhausted fuel stops the
stream. -/
def runChunks (cfg : Options) (res : Resolver) (fuel : Nat) :
    Engine → List (List Nat) → Outcome
  | e, [] => .ok e []
  | e, c :: cs =>
    match processChunk cfg res fuel e c with
    | .ok e' out => (runChunks cfg res fuel e' cs).prependOut out
    | .fail err out => .fail err out
    | .hung => .hung

/-- The method _flush: push the remaining stack when it is nonempty. -/
def flushOutput (e : Engine) : List Nat :=
  if e.stack.length > 0 then e.stack else []

/-- Observable result of a whole run: the emitted byte sequence, or a
failure with the bytes emitted before it, or a stream that never finished. -/
inductive RunResult where
  | done (out : List Nat)
  | failed (err : StreamError) (out : List Nat)
  | hung
deriving DecidableEq

/-- A whole stream run: all chunks through _transform, then _flush. -/
def run (cfg : Options) (res : Resolver) (fuel : Nat) (chunks : List (List Nat)) :
    RunResult :=
  match runChunks cfg res fuel initialEngine chunks with
  | .ok e out => .done (out ++ flushOutput e)
  | .fail err out => .failed err out
  | .hung => .hung

/-- The constructor validation: maxVariableNameLength must be greater than
0, then the start pattern and the end pattern must be nonempty, checked in
that order; on success the engine starts from the field initializers. -/
def construct (o : Options) : Except ConfigError Engine :=
  if o.maxVariableNameLength ≤ 0 then .error .nonPositiveMaxLength
  else if o.startPattern.length = 0 then .error .emptyStartPattern
  else if o.endPattern.length = 0 then .error .emptyEndPattern
  else .ok initialEngine

/-- Split a byte sequence into 1-byte chunks. -/
def oneByteChunks (l : List Nat) : List (List Nat) :=
  l.map (fun b => [b])

/-- pat occurs at the front of l. -/
def leadsWith : List Nat → List Nat → Bool
  | [], _ => true
  | _ :: _, [] => false
  | p :: ps, b :: bs => p == b && leadsWith ps bs

/-- pat occurs somewhere inside l as a contiguous run. -/
def occursIn (pat : List Nat) : List Nat → Bool
  | [] => leadsWith pat []
  | b :: rest => leadsWith pat (b :: rest) || occursIn pat rest

end TemplateReplace

namespace TemplateReplace

/-! ## Concrete configurations, inputs and resolvers used by the claims

Byte sequences are written as explicit ASCII codes; the decoded text is
given in a comment next to each one. Code 123 is the opening curly brace,
125 the closing one. -/

/-- The default options of the source: lenient policy, max length 100,
start pattern of two opening braces, end pattern of two closing braces. -/
def defaultOptions : Options :=
  { throwOnUnmatchedTemplate := false
    maxVariableNameLength := 100
    startPattern := [123, 123]
    endPattern := [125, 125] }

/-- Default options with throwOnUnmatchedTemplate set. -/
def strictOptions : Options :=
  { defaultOptions with throwOnUnmatchedTemplate := true }

/-- Bytes of: Hello, {{ name }}! -/
def helloTemplate : List Nat :=
  [72, 101, 108, 108, 111, 44, 32, 123, 123, 32, 110, 97, 109, 101, 32, 125, 125, 33]

/-- Bytes of: name -/
def nameBytes : List Nat := [110, 97, 109, 101]

/-- Bytes of: World -/
def worldBytes : List Nat := [87, 111, 114, 108, 100]

/-- Bytes of: Hello, World! -/
def helloWorld : List Nat :=
  [72, 101, 108, 108, 111, 44, 32, 87, 111, 114, 108, 100, 33]

/-- Bytes of: Hello, (with the trailing space) -/
def helloPrefix : List Nat := [72, 101, 108, 108, 111, 44, 32]

/-- Resolver mapping the name to the buffer World. -/
def resolverWorld : Resolver :=
  fun n => if n = nameBytes then some (.buf worldBytes) else none

/-- Resolver mapping the name to the empty JS string. -/
def resolverEmptyString : Resolver :=
  fun n => if n = nameBytes then some (.str []) else none

/-- The empty resolver (every name is undefined). -/
def resolverNone : Resolver := fun _ => none

end TemplateReplace

namespace TemplateReplace

/-- Strict options with maximum variable-name length 5 and the default
brace patterns. -/
def maxFiveStrict : Options :=
  { throwOnUnmatchedTemplate := true
    maxVariableNameLength := 5
    startPattern := [123, 123]
    endPattern := [125, 125] }

/-- Bytes of: aaaaaa (six letters a). -/
def sixA : List Nat := [97, 97, 97, 97, 97, 97]

/-- Bytes of the template containing the six-letter name between double
braces. -/
def templateSixA : List Nat := [123, 123, 97, 97, 97, 97, 97, 97, 125, 125]

/-- Resolver mapping the six-letter name to the buffer holding the byte of
the letter X. -/
def resolverSixA : Resolver :=
  fun n => if n = sixA then some (.buf [88]) else none

/-- C1. Chunk-boundary invariance fails on the code: with strict policy,
single-brace-pair patterns of two braces, maximum name length 5 and a
resolver defined on the six-letter name, the ten-byte template delivered
as one chunk resolves to the byte X, while the same bytes delivered as
1-byte chunks abort with the too-long error, because findVariableEnd
counts scanned bytes (including the start pattern itself) only when the
buffer runs out, so the limit check depends on chunk boundaries. -/
theorem C1_chunking_changes_output :
    run maxFiveStrict resolverSixA 60 [templateSixA] = .done [88]
    ∧ run maxFiveStrict resolverSixA 60 (oneByteChunks templateSixA)
        = .failed .variableNameTooLong [] := by
  decide

/-- Strict options with single-brace patterns and maximum name length 2. -/
def singleBraceStrict : Options :=
  { throwOnUnmatchedTemplate := true
    maxVariableNameLength := 2
    startPattern := [123]
    endPattern := [125]  }

/-- Resolver mapping the two-letter name ab to the buffer of the byte X. -/
def resolverAB : Resolver :=
  fun n => if n = [97, 98] then some (.buf [88]) else none

/-- C4. The max-length counting basis of the code differs from the claim:
with start pattern of one opening brace, end pattern of one closing brace
and maximum name length 2, the five bytes of the text consisting of the
braced two-letter name ab followed by an exclamation mark resolve to X
followed by the exclamation mark when delivered as one chunk (name length
2 is within the limit), but delivered as 1-byte chunks the stream aborts
with the too-long error after seeing a single name byte, because
matchCount starts at the start-pattern length (the pattern bytes are
counted against the limit) and the comparison is not-less-than rather
than greater-than. -/
theorem C4_counting_basis_eval :
    run singleBraceStrict resolverAB 60 [[123, 97, 98, 125, 33]] = .done [88, 33]
    ∧ run singleBraceStrict resolverAB 60 (oneByteChunks [123, 97, 98, 125, 33])
        = .failed .variableNameTooLong [] := by
  decide

/-- Lenient options with the default brace patterns and maximum name
length 3. -/
def maxThreeLenient : Options :=
  { throwOnUnmatchedTemplate := false
    maxVariableNameLength := 3
    startPattern := [123, 123]
    endPattern := [125, 125] }

/-- C9. The scan-cursor invariant fails: processing the single chunk of
two opening braces followed by the letters a and b (the engine state
entered by _transform from the initial engine) takes one loop body to
the variable-scanning state and a second loop body through the lenient
max-length abandon path of findVariableEnd, whose releaseStack of the
whole stack leaves stackIndex at -2, below the claimed lower bound 0. -/
theorem C9_negative_cursor_eval :
    transformStep maxThreeLenient resolverNone
        { stack := [123, 123, 97, 98], state := .SEARCHING_START_PATTERN,
          matchCount := 0, stackIndex := 0 }
      = .cont { stack := [123, 123, 97, 98], state := .PROCESSING_VARIABLE,
                matchCount := 2, stackIndex := 2 } []
    ∧ transformStep maxThreeLenient resolverNone
        { stack := [123, 123, 97, 98], state := .PROCESSING_VARIABLE,
          matchCount := 2, stackIndex := 2 }
      = .cont { stack := [], state := .SEARCHING_START_PATTERN,
                matchCount := 4, stackIndex := -2 } [123, 123, 97, 98]
    ∧ ({ stack := [], state := .SEARCHING_START_PATTERN,
         matchCount := 4, stackIndex := -2 } : Engine).stackIndex < 0 := by
  decide

/-- Bytes of: Hello, ! -/
def helloBang : List Nat := [72, 101, 108, 108, 111, 44, 32, 33]

/-- C2 counterexample. A resolver that maps the name to the empty JS
string returns the empty byte sequence, yet the template is not replaced:
the empty string is falsy, so the code takes the release branch and the
original placeholder bytes pass through unchanged instead of being
discarded. -/
theorem C2_counterexample_empty_string :
    run defaultOptions resolverEmptyString 60 [helloTemplate] = .done helloTemplate
    ∧ helloTemplate ≠ helloBang := by
  decide

/-- Strict options whose start and end pattern are both the single percent
byte, with maximum name length 3. -/
def percentStrict : Options :=
  { throwOnUnmatchedTemplate := true
    maxVariableNameLength := 3
    startPattern := [37]
    endPattern := [37] }

/-- C10 counterexample. With a shared first byte the input does not always
pass through: under the strict policy a percent byte followed by four
letters exceeds the maximum scan length and the stream fails with the
too-long error instead of emitting the input. -/
theorem C10_counterexample_strict_too_long :
    run percentStrict resolverNone 60 [[37, 97, 98, 99, 100]]
      = .failed .variableNameTooLong []
    ∧ (RunResult.failed .variableNameTooLong [] : RunResult)
        ≠ .done [37, 97, 98, 99, 100] := by
  decide

end TemplateReplace

namespace TemplateReplace

/-- releaseStack with a positive index always takes the released prefix and
keeps the dropped suffix (the dedicated whole-stack branch of the source
coincides with the take-drop form). -/
theorem releaseStack_pos (e : Engine) (i : Int) (h : 0 < i) :
    releaseStack e i
      = ({ e with stack := e.stack.drop i.toNat, stackIndex := e.stackIndex - i },
          e.stack.take i.toNat) := by
  unfold releaseStack
  have h1 : ¬(i ≤ 0) := by omega
  rw [if_neg h1]
  by_cases h2 : i = (e.stack.length : Int)
  · rw [if_pos h2]
    have h3 : i.toNat = e.stack.length := by omega
    rw [h3, List.drop_length, List.take_length]
  · rw [if_neg h2]

/-- releaseStack never invents or reorders bytes: the pushed output
followed by the kept stack is the original stack. -/
theorem releaseStack_conserves (e : Engine) (i : Int) :
    (releaseStack e i).2 ++ (releaseStack e i).1.stack = e.stack := by
  unfold releaseStack
  by_cases h1 : i ≤ 0
  · simp [h1]
  · rw [if_neg h1]
    by_cases h2 : i = (e.stack.length : Int)
    · simp [h2]
    · simp [h2, List.take_append_drop]

/-- releaseStack does not change the machine state or the match counter. -/
theorem releaseStack_fields (e : Engine) (i : Int) :
    (releaseStack e i).1.state = e.state
      ∧ (releaseStack e i).1.matchCount = e.matchCount := by
  unfold releaseStack
  by_cases h1 : i ≤ 0
  · simp [h1]
  · rw [if_neg h1]
    by_cases h2 : i = (e.stack.length : Int)
    · simp [h2]
    · simp [h2]

/-- A run of the for loop of findEndPattern that reports a full match has
executed the post-loop reset: the state is SEARCHING_START_PATTERN, the
match counter is 0, nothing was released, and the stack is untouched. -/
theorem fepLoop_true (pat : List Nat) :
    ∀ (k : Nat) (e e1 : Engine) (out : List Nat),
      fepLoop pat e k = (e1, out, true) →
      e1.state = .SEARCHING_START_PATTERN ∧ e1.matchCount = 0 ∧ out = []
        ∧ e1.stack = e.stack ∧ e.stackIndex ≤ e1.stackIndex := by
  intro k
  induction k with
  | zero =>
    intro e e1 out h
    unfold fepLoop at h
    injection h with h1 h2
    injection h2 with h2 h3
    subst h1 h2
    exact ⟨rfl, rfl, rfl, rfl, le_refl _⟩
  | succ k ih =>
    intro e e1 out h
    unfold fepLoop at h
    by_cases hg : e.stackIndex ≥ (e.stack.length : Int)
    · rw [if_pos hg] at h
      injection h with h1 h2
      injection h2 with h2 h3
      exact absurd h3 (by simp)
    · rw [if_neg hg] at h
      by_cases hb : byteAt e.stack e.stackIndex = some (pat.getD e.matchCount.toNat 0)
      · rw [if_pos hb] at h
        have := ih _ _ _ h
        refine ⟨this.1, this.2.1, this.2.2.1, this.2.2.2.1, ?_⟩
        have := this.2.2.2.2
        simp only at this
        omega
      · rw [if_neg hb] at h
        injection h with h1 h2
        injection h2 with h2 h3
        exact absurd h3 (by simp)

/-- The same facts read off the method findEndPattern. -/
theorem findEndPattern_true (cfg : Options) (e e1 : Engine) (out : List Nat)
    (h : findEndPattern cfg e = (e1, out, true)) :
    e1.state = .SEARCHING_START_PATTERN ∧ e1.matchCount = 0 ∧ out = []
      ∧ e1.stack = e.stack := by
  have := fepLoop_true cfg.endPattern _ e e1 out h
  exact ⟨this.1, this.2.1, this.2.2.1, this.2.2.2.1⟩

/-- subarray from a nonnegative start to the end of the buffer is drop. -/
theorem subarrayFrom_nonneg (l : List Nat) (s : Int) (h : 0 ≤ s) :
    subarrayFrom l s = l.drop s.toNat := by
  unfold subarrayFrom subarray jsClamp
  have h1 : ¬((l.length : Int) < 0) := by omega
  have h2 : ¬(s < 0) := by omega
  rw [if_neg h1, if_neg h2]
  simp only [Int.toNat_natCast, min_self, List.take_length]
  rcases le_or_lt s.toNat l.length with hle | hlt
  · rw [min_eq_left hle]
  · rw [min_eq_right hlt.le, List.drop_length,
      Eq.symm (List.drop_eq_nil_of_le hlt.le)]

/-- C2 (amended). Whenever the engine is in SEARCHING_END_PATTERN and
findEndPattern confirms a complete placeholder, and the resolver returns a
truthy value for the trimmed name between the patterns (any buffer,
including the empty one, or a nonempty string), the loop body discards the
matched placeholder prefix of the pending buffer, emits the value bytes in
its place, and resumes searching for a start pattern at cursor 0 just past
the discarded placeholder. The second conjunct is the round trip: the
template greeting the name with resolver mapping the name to World yields
the greeting of World. A resolver value that is the empty JS string is
excluded: it is falsy and the code releases the placeholder verbatim
instead (see the counterexample). -/
theorem C2_truthy_substitution :
    (∀ (cfg : Options) (res : Resolver) (e e1 : Engine) (out1 : List Nat)
        (v : StringContent),
      e.state = .SEARCHING_END_PATTERN →
      findEndPattern cfg e = (e1, out1, true) →
      res (trimBytes (subarray e1.stack (cfg.startPattern.length : Int)
          (e1.stackIndex - (cfg.endPattern.length : Int)))) = some v →
      v.truthy = true →
      0 ≤ e1.stackIndex →
      transformStep cfg res e
        = .cont { stack := e1.stack.drop e1.stackIndex.toNat,
                  state := .SEARCHING_START_PATTERN, matchCount := 0,
                  stackIndex := 0 } (out1 ++ v.toBuffer))
    ∧ run defaultOptions resolverWorld 60 [helloTemplate] = .done helloWorld := by
  constructor
  · intro cfg res e e1 out1 v hst hfep hres htr hidx
    obtain ⟨hstate1, hmc1, hout1, hstk1⟩ := findEndPattern_true cfg e e1 out1 hfep
    unfold transformStep
    rw [hst]
    simp only
    rw [hfep]
    simp only
    rw [hres]
    simp only [htr, if_pos]
    rw [subarrayFrom_nonneg _ _ hidx]
    subst hout1
    obtain ⟨s1, st1, m1, i1⟩ := e1
    simp only at hstate1 hmc1
    subst hstate1 hmc1
    rfl
  · decide

/-- C3. Absent-name policy at a completed placeholder match: when the
resolver has no value for the trimmed name, under the strict policy the
loop body fails with the unresolved-variable error carrying that name (and
only output pushed before the failure is delivered, as no new bytes are
attached by the failing step), while under the lenient policy the original
placeholder bytes held at the front of the pending buffer are pushed
verbatim and matching resumes in SEARCHING_START_PATTERN at cursor 0 just
past them. The closed conjuncts run the greeting template end to end with
the empty resolver: the strict run fails with the unresolved-variable
error for the name after having delivered exactly the literal prefix, and
the lenient run passes the input through unchanged. -/
theorem C3_absent_name_policy :
    (∀ (cfg : Options) (res : Resolver) (e e1 : Engine) (out1 : List Nat),
      e.state = .SEARCHING_END_PATTERN →
      findEndPattern cfg e = (e1, out1, true) →
      res (trimBytes (subarray e1.stack (cfg.startPattern.length : Int)
          (e1.stackIndex - (cfg.endPattern.length : Int)))) = none →
      0 < e1.stackIndex →
      (cfg.throwOnUnmatchedTemplate = true →
        transformStep cfg res e
          = .fail (.unresolvedVariable (trimBytes (subarray e1.stack
              (cfg.startPattern.length : Int)
              (e1.stackIndex - (cfg.endPattern.length : Int))))) out1)
      ∧ (cfg.throwOnUnmatchedTemplate = false →
        transformStep cfg res e
          = .cont { stack := e1.stack.drop e1.stackIndex.toNat,
                    state := .SEARCHING_START_PATTERN, matchCount := 0,
                    stackIndex := 0 } (out1 ++ e1.stack.take e1.stackIndex.toNat)))
    ∧ run strictOptions resolverNone 60 [helloTemplate]
        = .failed (.unresolvedVariable nameBytes) helloPrefix
    ∧ run defaultOptions resolverNone 60 [helloTemplate] = .done helloTemplate := by
  refine ⟨?_, by decide, by decide⟩
  intro cfg res e e1 out1 hst hfep hres hidx
  obtain ⟨hstate1, hmc1, hout1, hstk1⟩ := findEndPattern_true cfg e e1 out1 hfep
  constructor
  · intro hthrow
    unfold transformStep
    rw [hst]
    simp only
    rw [hfep]
    simp only
    rw [hres]
    simp only [hthrow, if_pos]
  · intro hlen
    unfold transformStep
    rw [hst]
    simp only
    rw [hfep]
    simp only
    rw [hres]
    simp only [hlen]
    rw [if_neg (by simp)]
    rw [releaseStack_pos e1 e1.stackIndex hidx]
    simp only
    subst hout1
    obtain ⟨s1, st1, m1, i1⟩ := e1
    simp only at hstate1 hmc1
    subst hstate1 hmc1
    simp only [sub_self]

/-- Witness for C2: a concrete SEARCHING_END_PATTERN state over the stack
holding the placeholder of the name followed by an exclamation mark, one
end-pattern byte confirmed; the step discards the placeholder and emits
the World bytes. -/
theorem C2_witness :
    transformStep defaultOptions resolverWorld
      { stack := [123, 123, 32, 110, 97, 109, 101, 32, 125, 125, 33],
        state := .SEARCHING_END_PATTERN, matchCount := 1, stackIndex := 9 }
      = .cont { stack := [33], state := .SEARCHING_START_PATTERN, matchCount := 0,
                stackIndex := 0 } ([] ++ worldBytes) := by
  have h := C2_truthy_substitution.1 defaultOptions resolverWorld
    { stack := [123, 123, 32, 110, 97, 109, 101, 32, 125, 125, 33],
      state := .SEARCHING_END_PATTERN, matchCount := 1, stackIndex := 9 }
    { stack := [123, 123, 32, 110, 97, 109, 101, 32, 125, 125, 33],
      state := .SEARCHING_START_PATTERN, matchCount := 0, stackIndex := 10 }
    [] (.buf worldBytes) rfl (by decide) (by decide) (by decide) (by decide)
  rw [h]
  decide

/-- Witness for C3: the same concrete matched-placeholder state under the
empty resolver, once with the strict configuration (failure naming the
variable) and once with the lenient one (placeholder released verbatim). -/
theorem C3_witness :
    transformStep strictOptions resolverNone
      { stack := [123, 123, 32, 110, 97, 109, 101, 32, 125, 125, 33],
        state := .SEARCHING_END_PATTERN, matchCount := 1, stackIndex := 9 }
      = .fail (.unresolvedVariable nameBytes) []
    ∧ transformStep defaultOptions resolverNone
      { stack := [123, 123, 32, 110, 97, 109, 101, 32, 125, 125, 33],
        state := .SEARCHING_END_PATTERN, matchCount := 1, stackIndex := 9 }
      = .cont { stack := [33], state := .SEARCHING_START_PATTERN, matchCount := 0,
                stackIndex := 0 }
          ([] ++ [123, 123, 32, 110, 97, 109, 101, 32, 125, 125]) := by
  constructor
  · have h := C3_absent_name_policy.1 strictOptions resolverNone
      { stack := [123, 123, 32, 110, 97, 109, 101, 32, 125, 125, 33],
        state := .SEARCHING_END_PATTERN, matchCount := 1, stackIndex := 9 }
      { stack := [123, 123, 32, 110, 97, 109, 101, 32, 125, 125, 33],
        state := .SEARCHING_START_PATTERN, matchCount := 0, stackIndex := 10 }
      [] rfl (by decide) (by decide) (by decide)
    rw [h.1 rfl]
    decide
  · have h := C3_absent_name_policy.1 defaultOptions resolverNone
      { stack := [123, 123, 32, 110, 97, 109, 101, 32, 125, 125, 33],
        state := .SEARCHING_END_PATTERN, matchCount := 1, stackIndex := 9 }
      { stack := [123, 123, 32, 110, 97, 109, 101, 32, 125, 125, 33],
        state := .SEARCHING_START_PATTERN, matchCount := 0, stackIndex := 10 }
      [] rfl (by decide) (by decide) (by decide)
    rw [h.2 rfl]
    decide

/-- The method _flush emits exactly the pending buffer (helper form). -/
theorem flushOutput_eq (e : Engine) : flushOutput e = e.stack := by
  unfold flushOutput
  by_cases h : e.stack.length > 0
  · rw [if_pos h]
  · rw [if_neg h]
    have h0 : e.stack = [] := List.length_eq_zero.mp (by omega)
    rw [h0]

/-- C7. Finish flushes verbatim: for every engine state the flush emits
exactly the bytes still held in the pending buffer, unchanged (and nothing
when the buffer is empty, since the emitted sequence is then the empty
one); consequently any run whose chunk processing finishes in a final
engine emits the accumulated output followed by that final pending buffer,
with no retained byte dropped or transformed at end of stream. -/
theorem C7_flush_verbatim :
    (∀ e : Engine, flushOutput e = e.stack)
    ∧ (∀ (cfg : Options) (res : Resolver) (fuel : Nat) (chunks : List (List Nat))
        (e : Engine) (out : List Nat),
        runChunks cfg res fuel initialEngine chunks = .ok e out →
        run cfg res fuel chunks = .done (out ++ e.stack)) := by
  constructor
  · exact flushOutput_eq
  · intro cfg res fuel chunks e out h
    unfold run
    rw [h]
    simp only [flushOutput_eq]

/-- Witness for C7: the chunk of the letters a and b followed by a single
opening brace leaves the partially matched brace pending; the run emits
the released letters and then flushes the brace verbatim. -/
theorem C7_witness :
    run defaultOptions resolverNone 10 [[97, 98, 123]]
      = .done ([97, 98] ++ [123]) :=
  C7_flush_verbatim.2 defaultOptions resolverNone 10 [[97, 98, 123]]
    { stack := [123], state := .SEARCHING_START_PATTERN, matchCount := 1,
      stackIndex := 1 }
    [97, 98] (by decide)

/-- C8. Construction-time validation: construct raises an error exactly
when the maximum variable-name length is not greater than 0, the start
pattern is empty, or the end pattern is empty; a successful construction
yields the initial engine, which is in SEARCHING_START_PATTERN with an
empty pending buffer. The last conjunct records that the streaming error
type has only the two runtime errors, so configuration errors cannot
arise during streaming. -/
theorem C8_construction_validation :
    (∀ o : Options,
      ((∃ err, construct o = .error err)
        ↔ (o.maxVariableNameLength ≤ 0 ∨ o.startPattern = [] ∨ o.endPattern = []))
      ∧ (∀ e, construct o = .ok e →
          e = initialEngine ∧ e.state = .SEARCHING_START_PATTERN ∧ e.stack = []))
    ∧ (∀ err : StreamError,
        err = .variableNameTooLong ∨ ∃ n, err = .unresolvedVariable n) := by
  constructor
  · intro o
    constructor
    · constructor
      · rintro ⟨err, herr⟩
        unfold construct at herr
        split_ifs at herr with h1 h2 h3
        · exact Or.inl h1
        · exact Or.inr (Or.inl (List.length_eq_zero.mp h2))
        · exact Or.inr (Or.inr (List.length_eq_zero.mp h3))
      · intro h
        unfold construct
        split_ifs with h1 h2 h3
        · exact ⟨.nonPositiveMaxLength, rfl⟩
        · exact ⟨.emptyStartPattern, rfl⟩
        · exact ⟨.emptyEndPattern, rfl⟩
        · rcases h with h | h | h
          · exact absurd h h1
          · exact absurd (by simp [h]) h2
          · exact absurd (by simp [h]) h3
    · intro e he
      unfold construct at he
      split_ifs at he
      injection he with he
      subst he
      exact ⟨rfl, rfl, rfl⟩
  · intro err
    cases err with
    | variableNameTooLong => exact Or.inl rfl
    | unresolvedVariable n => exact Or.inr ⟨n, rfl⟩

/-- Options with a zero maximum name length, otherwise the defaults. -/
def zeroMaxOptions : Options :=
  { defaultOptions with maxVariableNameLength := 0 }

/-- Witness for C8: a zero maximum length is rejected, and the default
configuration is accepted with the initial engine. -/
theorem C8_witness :
    (∃ err, construct zeroMaxOptions = .error err)
    ∧ (initialEngine = initialEngine
        ∧ initialEngine.state = .SEARCHING_START_PATTERN
        ∧ initialEngine.stack = []) :=
  ⟨(C8_construction_validation.1 _).1.mpr (by decide),
    (C8_construction_validation.1 defaultOptions).2 initialEngine rfl⟩

/-- Bytes of: two opening braces, a, b, one opening brace, c, d (a start
pattern inside an open placeholder with no end-pattern byte anywhere). -/
def overlapStack : List Nat := [123, 123, 97, 98, 123, 99, 100]

/-- The engine just after _transform appends the overlap chunk. -/
def eOverlapA : Engine :=
  { stack := overlapStack, state := .SEARCHING_START_PATTERN, matchCount := 0,
    stackIndex := 0 }

/-- The engine after the start pattern has been matched. -/
def eOverlapB : Engine :=
  { stack := overlapStack, state := .PROCESSING_VARIABLE, matchCount := 2,
    stackIndex := 2 }

/-- The engine produced by findVariableEnd from eOverlapB: the source
comparison (nextStartIndex === -1 || nextStartIndex > nextEndIndex) is
true because nextEndIndex is -1, so the state becomes
SEARCHING_END_PATTERN with the cursor reset to nextEndIndex + 1 = 0. -/
def eOverlapC : Engine :=
  { stack := overlapStack, state := .SEARCHING_END_PATTERN, matchCount := 1,
    stackIndex := 0 }

/-- Unfolding the transform loop by one continuing step. -/
theorem transformLoop_succ_cont (cfg : Options) (res : Resolver) (fuel : Nat)
    (e e' : Engine) (out : List Nat)
    (hg : e.stackIndex < (e.stack.length : Int))
    (hs : transformStep cfg res e = .cont e' out) :
    transformLoop cfg res (fuel + 1) e
      = (transformLoop cfg res fuel e').prependOut out := by
  rw [transformLoop, if_pos hg, hs]

/-- The transform loop cycles forever on the three overlap states. -/
theorem overlap_cycle_hung (fuel : Nat) :
    transformLoop defaultOptions resolverNone fuel eOverlapA = .hung
    ∧ transformLoop defaultOptions resolverNone fuel eOverlapB = .hung
    ∧ transformLoop defaultOptions resolverNone fuel eOverlapC = .hung := by
  induction fuel with
  | zero => exact ⟨by decide, by decide, by decide⟩
  | succ f ih =>
    refine ⟨?_, ?_, ?_⟩
    · rw [transformLoop_succ_cont defaultOptions resolverNone f eOverlapA eOverlapB []
        (by decide) (by decide), ih.2.1]
      rfl
    · rw [transformLoop_succ_cont defaultOptions resolverNone f eOverlapB eOverlapC []
        (by decide) (by decide), ih.2.2]
      rfl
    · rw [transformLoop_succ_cont defaultOptions resolverNone f eOverlapC eOverlapA []
        (by decide) (by decide), ih.1]
      rfl

/-- C5. Overlapping-placeholder handling diverges from the claim when the
start-pattern first byte occurs with no end-pattern first byte anywhere
after the cursor: instead of releasing the skipped bytes and restarting at
the new start occurrence, findVariableEnd enters SEARCHING_END_PATTERN
with the cursor reset to nextEndIndex + 1 = 0 and releases nothing (first
conjunct), after which the transform loop revisits the same three states
forever: the stream processing the single overlap chunk under the default
options never finishes, for every fuel bound (second conjunct). The
doc comment of findVariableEnd itself says a start-pattern symbol sends
the machine back to searching the start pattern, which is what the claim
describes and the code fails to do in this case. -/
theorem C5_overlap_no_end :
    findVariableEnd defaultOptions eOverlapB = .cont eOverlapC []
    ∧ (∀ fuel, run defaultOptions resolverNone fuel [overlapStack] = .hung) := by
  constructor
  · decide
  · intro fuel
    unfold run runChunks processChunk
    have hA : ({ initialEngine with
        stack := initialEngine.stack ++ overlapStack } : Engine) = eOverlapA := by
      decide
    rw [hA, (overlap_cycle_hung fuel).1]

/-- Witness for C5 at the concrete fuel bound 7. -/
theorem C5_witness :
    run defaultOptions resolverNone 7 [overlapStack] = .hung :=
  C5_overlap_no_end.2 7


/-- findStartPattern never touches the stack. -/
theorem findStartPattern_stack (cfg : Options) (e : Engine) :
    (findStartPattern cfg e).stack = e.stack := by
  unfold findStartPattern
  dsimp only
  by_cases h1 : e.matchCount = 0
  · rw [if_pos h1]
    by_cases h2 : indexOfFrom e.stack (cfg.startPattern.getD 0 0) 0 = -1
    · rw [if_pos h2]
    · rw [if_neg h2]
      dsimp only
      split <;> rfl
  · rw [if_neg h1]
    dsimp only
    split <;> rfl

/-- findStartPattern leaves the machine in its old state or in
PROCESSING_VARIABLE; in particular it never produces
SEARCHING_END_PATTERN from a non-end state. -/
theorem findStartPattern_state (cfg : Options) (e : Engine)
    (he : e.state ≠ .SEARCHING_END_PATTERN) :
    (findStartPattern cfg e).state ≠ .SEARCHING_END_PATTERN := by
  unfold findStartPattern
  dsimp only
  by_cases h1 : e.matchCount = 0
  · rw [if_pos h1]
    by_cases h2 : indexOfFrom e.stack (cfg.startPattern.getD 0 0) 0 = -1
    · rw [if_pos h2]
      exact he
    · rw [if_neg h2]
      dsimp only
      split
      · simp
      · exact he
  · rw [if_neg h1]
    dsimp only
    split
    · simp
    · exact he

/-- When the first bytes of the two patterns coincide, findVariableEnd
either fails (strict too-long) with no output, or continues with released
output that concatenates with the kept stack to the old stack, never
entering SEARCHING_END_PATTERN: the two index searches always tie, and the
source comparison sends ties to the restart branch. -/
theorem fve_shared (cfg : Options) (e : Engine)
    (hsh : cfg.startPattern.getD 0 0 = cfg.endPattern.getD 0 0)
    (he : e.state ≠ .SEARCHING_END_PATTERN) :
    (∃ err, findVariableEnd cfg e = .fail err []) ∨
    (∃ e' out, findVariableEnd cfg e = .cont e' out ∧ out ++ e'.stack = e.stack
      ∧ e'.state ≠ .SEARCHING_END_PATTERN) := by
  unfold findVariableEnd
  rw [hsh]
  dsimp only
  set n := indexOfFrom e.stack (cfg.endPattern.getD 0 0) e.stackIndex with hn
  by_cases h1 : n = -1
  · rw [if_pos ⟨h1, h1⟩]
    by_cases h2 : e.matchCount + ((e.stack.length : Int) - e.stackIndex)
        < cfg.maxVariableNameLength
    · rw [if_pos h2]
      exact Or.inr ⟨_, _, rfl, by simp, by simpa using he⟩
    · rw [if_neg h2]
      by_cases h3 : cfg.throwOnUnmatchedTemplate = true
      · rw [if_pos h3]
        exact Or.inl ⟨_, rfl⟩
      · rw [if_neg h3]
        refine Or.inr ⟨_, _, rfl, ?_, ?_⟩
        · exact releaseStack_conserves _ _
        · have hf := (releaseStack_fields
            { e with
                matchCount := e.matchCount + ((e.stack.length : Int) - e.stackIndex)
                state := .SEARCHING_START_PATTERN }
            (({ e with
                matchCount := e.matchCount + ((e.stack.length : Int) - e.stackIndex)
                state := .SEARCHING_START_PATTERN } : Engine).stack.length : Int)).1
          rw [hf]
          simp
  · rw [if_neg (by rintro ⟨ha, _⟩; exact h1 ha)]
    rw [if_neg (by rintro (ha | ha); exact h1 ha; exact lt_irrefl n ha)]
    refine Or.inr ⟨_, _, rfl, ?_, ?_⟩
    · have hc := releaseStack_conserves
        { e with state := .SEARCHING_START_PATTERN, stackIndex := n + 1 } n
      simpa using hc
    · have hf := (releaseStack_fields
        { e with state := .SEARCHING_START_PATTERN, stackIndex := n + 1 } n).1
      simp only [hf]
      simp

/-- One loop body under a shared first byte: resolver-independent, and a
continuing step conserves bytes and stays out of SEARCHING_END_PATTERN. -/
theorem step_shared (cfg : Options)
    (hsh : cfg.startPattern.getD 0 0 = cfg.endPattern.getD 0 0) (e : Engine)
    (he : e.state ≠ .SEARCHING_END_PATTERN) :
    (∀ res res' : Resolver, transformStep cfg res e = transformStep cfg res' e)
    ∧ (∀ (res : Resolver) (e' : Engine) (out : List Nat),
        transformStep cfg res e = .cont e' out →
        out ++ e'.stack = e.stack ∧ e'.state ≠ .SEARCHING_END_PATTERN) := by
  obtain ⟨stk, st, mc, idx⟩ := e
  cases st with
  | SEARCHING_END_PATTERN => exact absurd rfl he
  | SEARCHING_START_PATTERN =>
    constructor
    · intro res res'
      rfl
    · intro res e' out h
      unfold transformStep at h
      dsimp only at h
      injection h with h1 h2
      subst h1
      subst h2
      refine ⟨?_, ?_⟩
      · rw [releaseStack_conserves, findStartPattern_stack]
      · rw [(releaseStack_fields _ _).1]
        exact findStartPattern_state cfg _ (by simp)
  | PROCESSING_VARIABLE =>
    constructor
    · intro res res'
      rfl
    · intro res e' out h
      unfold transformStep at h
      dsimp only at h
      rcases fve_shared cfg ⟨stk, .PROCESSING_VARIABLE, mc, idx⟩ hsh (by simp)
        with ⟨err, hfail⟩ | ⟨e2, out2, hcont, hcons, hstate⟩
      · rw [hfail] at h
        exact absurd h (by simp)
      · rw [hcont] at h
        injection h with h1 h2
        subst h1
        subst h2
        exact ⟨hcons, hstate⟩

/-- The transform loop under a shared first byte: resolver-independent,
and a finishing loop conserves bytes and stays out of
SEARCHING_END_PATTERN. -/
theorem loop_shared (cfg : Options)
    (hsh : cfg.startPattern.getD 0 0 = cfg.endPattern.getD 0 0) :
    ∀ (fuel : Nat) (e : Engine), e.state ≠ .SEARCHING_END_PATTERN →
      (∀ res res' : Resolver,
        transformLoop cfg res fuel e = transformLoop cfg res' fuel e)
      ∧ (∀ (res : Resolver) (e' : Engine) (out : List Nat),
          transformLoop cfg res fuel e = .ok e' out →
          out ++ e'.stack = e.stack ∧ e'.state ≠ .SEARCHING_END_PATTERN) := by
  intro fuel
  induction fuel with
  | zero =>
    intro e he
    constructor
    · intro res res'
      rfl
    · intro res e' out h
      rw [transformLoop] at h
      by_cases hg : e.stackIndex < (e.stack.length : Int)
      · rw [if_pos hg] at h
        exact absurd h (by simp)
      · rw [if_neg hg] at h
        injection h with h1 h2
        subst h1
        subst h2
        exact ⟨by simp, he⟩
  | succ f ih =>
    intro e he
    by_cases hg : e.stackIndex < (e.stack.length : Int)
    · have hstep := step_shared cfg hsh e he
      constructor
      · intro res res'
        rw [transformLoop, if_pos hg, transformLoop, if_pos hg, ← hstep.1 res res']
        rcases hr : transformStep cfg res e with ⟨e1, out1⟩ | ⟨err, out1⟩
        · have hstate1 := (hstep.2 res e1 out1 hr).2
          dsimp only
          rw [(ih e1 hstate1).1 res res']
        · rfl
      · intro res e' out h
        rw [transformLoop, if_pos hg] at h
        rcases hr : transformStep cfg res e with ⟨e1, out1⟩ | ⟨err, out1⟩
        · rw [hr] at h
          dsimp only at h
          have hstep1 := hstep.2 res e1 out1 hr
          rcases hl : transformLoop cfg res f e1 with ⟨e2, out2⟩ | ⟨err2, out2⟩ | _
          · rw [hl] at h
            dsimp only [Outcome.prependOut] at h
            injection h with h1 h2
            subst h1
            subst h2
            have hcons2 := (ih e1 hstep1.2).2 res e2 out2 hl
            refine ⟨?_, hcons2.2⟩
            rw [List.append_assoc, hcons2.1, hstep1.1]
          · rw [hl] at h
            exact absurd h (by simp [Outcome.prependOut])
          · rw [hl] at h
            exact absurd h (by simp [Outcome.prependOut])
        · rw [hr] at h
          exact absurd h (by simp)
    · constructor
      · intro res res'
        rw [transformLoop, if_neg hg, transformLoop, if_neg hg]
      · intro res e' out h
        rw [transformLoop, if_neg hg] at h
        injection h with h1 h2
        subst h1
        subst h2
        exact ⟨by simp, he⟩

/-- Chunk sequencing under a shared first byte: resolver-independent, and
a finishing chunk phase conserves all input bytes. -/
theorem runChunks_shared (cfg : Options)
    (hsh : cfg.startPattern.getD 0 0 = cfg.endPattern.getD 0 0) :
    ∀ (chunks : List (List Nat)) (fuel : Nat) (e : Engine),
      e.state ≠ .SEARCHING_END_PATTERN →
      (∀ res res' : Resolver,
        runChunks cfg res fuel e chunks = runChunks cfg res' fuel e chunks)
      ∧ (∀ (res : Resolver) (e' : Engine) (out : List Nat),
          runChunks cfg res fuel e chunks = .ok e' out →
          out ++ e'.stack = e.stack ++ chunks.flatten
            ∧ e'.state ≠ .SEARCHING_END_PATTERN) := by
  intro chunks
  induction chunks with
  | nil =>
    intro fuel e he
    constructor
    · intro res res'
      rfl
    · intro res e' out h
      rw [runChunks] at h
      injection h with h1 h2
      subst h1
      subst h2
      exact ⟨by simp, he⟩
  | cons c cs ih =>
    intro fuel e he
    have hstate0 : ({ e with stack := e.stack ++ c } : Engine).state
        ≠ .SEARCHING_END_PATTERN := by simpa using he
    have hloop := loop_shared cfg hsh fuel { e with stack := e.stack ++ c } hstate0
    constructor
    · intro res res'
      rw [runChunks, runChunks]
      unfold processChunk
      rw [hloop.1 res res']
      rcases hr : transformLoop cfg res' fuel { e with stack := e.stack ++ c }
        with ⟨e1, out1⟩ | ⟨err1, out1⟩ | _
      · have hstate1 := (hloop.2 res' e1 out1 hr).2
        dsimp only
        rw [(ih fuel e1 hstate1).1 res res']
      · rfl
      · rfl
    · intro res e' out h
      rw [runChunks] at h
      unfold processChunk at h
      rcases hr : transformLoop cfg res fuel { e with stack := e.stack ++ c }
        with ⟨e1, out1⟩ | ⟨err1, out1⟩ | _
      · rw [hr] at h
        dsimp only at h
        have hcons1 := hloop.2 res e1 out1 hr
        rcases hc : runChunks cfg res fuel e1 cs with ⟨e2, out2⟩ | ⟨err2, out2⟩ | _
        · rw [hc] at h
          dsimp only [Outcome.prependOut] at h
          injection h with h1 h2
          subst h1
          subst h2
          have hcons2 := (ih fuel e1 hcons1.2).2 res e2 out2 hc
          refine ⟨?_, hcons2.2⟩
          rw [List.append_assoc, hcons2.1, ← List.append_assoc, hcons1.1,
            List.flatten_cons, ← List.append_assoc]
        · rw [hc] at h
          exact absurd h (by simp [Outcome.prependOut])
        · rw [hc] at h
          exact absurd h (by simp [Outcome.prependOut])
      · rw [hr] at h
        exact absurd h (by simp)
      · rw [hr] at h
        exact absurd h (by simp)

/-- Lenient options whose start and end pattern are both the single
percent byte. -/
def percentOptions : Options :=
  { throwOnUnmatchedTemplate := false
    maxVariableNameLength := 100
    startPattern := [37]
    endPattern := [37] }

/-- C10 (amended). When the first byte of the start pattern equals the
first byte of the end pattern, the two index searches of findVariableEnd
always tie and the tie takes the restart branch, so the machine never
enters SEARCHING_END_PATTERN and the resolver is never consulted: the
whole run is the same for every resolver (first conjunct). Every run that
completes passes the entire input through as literal output (second
conjunct); a run need not complete, since the max-length policy can raise
the too-long error under the strict policy or hang the loop under the
lenient one (see the counterexample). -/
theorem C10_shared_first_byte :
    (∀ (cfg : Options) (res res' : Resolver) (fuel : Nat)
        (chunks : List (List Nat)),
      cfg.startPattern.getD 0 0 = cfg.endPattern.getD 0 0 →
      run cfg res fuel chunks = run cfg res' fuel chunks)
    ∧ (∀ (cfg : Options) (res : Resolver) (fuel : Nat)
        (chunks : List (List Nat)) (out : List Nat),
      cfg.startPattern.getD 0 0 = cfg.endPattern.getD 0 0 →
      run cfg res fuel chunks = .done out → out = chunks.flatten) := by
  constructor
  · intro cfg res res' fuel chunks hsh
    unfold run
    rw [(runChunks_shared cfg hsh chunks fuel initialEngine (by simp [initialEngine])).1
      res res']
  · intro cfg res fuel chunks out hsh h
    unfold run at h
    rcases hr : runChunks cfg res fuel initialEngine chunks
      with ⟨e1, out1⟩ | ⟨err1, out1⟩ | _
    · rw [hr] at h
      injection h with h1
      have hcons := ((runChunks_shared cfg hsh chunks fuel initialEngine
        (by simp [initialEngine])).2 res e1 out1 hr).1
      rw [flushOutput_eq] at h1
      rw [h1] at hcons
      simpa [initialEngine] using hcons
    · rw [hr] at h
      exact absurd h (by simp)
    · rw [hr] at h
      exact absurd h (by simp)

/-- Witness for C10 at the percent configuration: the five-byte input of
a letter, percent, letter, percent, letter runs identically under two
different resolvers, and its completed output is exactly the input. -/
theorem C10_witness :
    run percentOptions resolverWorld 60 [[97, 37, 98, 37, 99]]
      = run percentOptions resolverNone 60 [[97, 37, 98, 37, 99]]
    ∧ [97, 37, 98, 37, 99]
        = ([[97, 37, 98, 37, 99]] : List (List Nat)).flatten :=
  ⟨C10_shared_first_byte.1 percentOptions resolverWorld resolverNone 60
      [[97, 37, 98, 37, 99]] rfl,
    C10_shared_first_byte.2 percentOptions resolverNone 60
      [[97, 37, 98, 37, 99]] [97, 37, 98, 37, 99] rfl (by decide)⟩

/-- leadsWith holds exactly when the pattern is an initial segment. -/
theorem leadsWith_iff (pat : List Nat) :
    ∀ l : List Nat, leadsWith pat l = true ↔ ∃ t, l = pat ++ t := by
  induction pat with
  | nil =>
    intro l
    simp [leadsWith]
  | cons p ps ih =>
    intro l
    cases l with
    | nil =>
      simp [leadsWith]
    | cons b bs =>
      rw [leadsWith]
      constructor
      · intro h
        have hpb : p = b := by
          have h2 := ((Bool.and_eq_true _ _).mp h).1
          simpa using h2
        obtain ⟨t, ht⟩ := (ih bs).mp ((Bool.and_eq_true _ _).mp h).2
        exact ⟨t, by rw [hpb, ht]; rfl⟩
      · rintro ⟨t, ht⟩
        injection ht with h1 h2
        rw [Bool.and_eq_true]
        refine ⟨by rw [h1]; simp, (ih bs).mpr ⟨t, h2⟩⟩

/-- occursIn holds exactly when the pattern occurs contiguously. -/
theorem occursIn_iff (pat : List Nat) :
    ∀ l : List Nat, occursIn pat l = true ↔ ∃ a b, l = a ++ pat ++ b := by
  intro l
  induction l with
  | nil =>
    rw [occursIn, leadsWith_iff]
    constructor
    · rintro ⟨t, ht⟩
      exact ⟨[], t, by simpa using ht⟩
    · rintro ⟨a, b, hab⟩
      have ha : a = [] := by
        rcases a with _ | ⟨x, xs⟩
        · rfl
        · exact absurd hab (by simp)
      subst ha
      exact ⟨b, by simpa using hab⟩
  | cons x xs ih =>
    rw [occursIn, Bool.or_eq_true, leadsWith_iff, ih]
    constructor
    · rintro (⟨t, ht⟩ | ⟨a, b, hab⟩)
      · exact ⟨[], t, by simpa using ht⟩
      · exact ⟨x :: a, b, by rw [hab]; rfl⟩
    · rintro ⟨a, b, hab⟩
      rcases a with _ | ⟨y, ys⟩
      · exact Or.inl ⟨b, by simpa using hab⟩
      · injection hab with h1 h2
        exact Or.inr ⟨ys, b, h2⟩

/-- No occurrence in a list gives no occurrence in any contiguous piece. -/
theorem occursIn_false_of_infix (pat a m b : List Nat)
    (h : occursIn pat (a ++ m ++ b) = false) : occursIn pat m = false := by
  by_contra hm
  have hm' : occursIn pat m = true := by
    cases hcase : occursIn pat m
    · exact absurd hcase hm
    · rfl
  obtain ⟨x, y, hxy⟩ := (occursIn_iff pat m).mp hm'
  have : occursIn pat (a ++ m ++ b) = true :=
    (occursIn_iff pat _).mpr ⟨a ++ x, y ++ b, by rw [hxy]; simp⟩
  rw [this] at h
  exact absurd h (by simp)

/-- A successful scan yields a position holding the byte. -/
theorem scanFor_some (b : Nat) :
    ∀ (l : List Nat) (j : Nat), scanFor b l = some j →
      j < l.length ∧ l[j]? = some b := by
  intro l
  induction l with
  | nil =>
    intro j h
    exact absurd h (by simp [scanFor])
  | cons x xs ih =>
    intro j h
    rw [scanFor] at h
    by_cases hx : x = b
    · rw [if_pos hx] at h
      injection h with h
      subst h
      simpa using hx
    · rw [if_neg hx] at h
      rcases hj : scanFor b xs with _ | j'
      · rw [hj] at h
        exact absurd h (by simp)
      · rw [hj] at h
        injection h with h
        obtain ⟨hlt, hget⟩ := ih j' hj
        subst h
        constructor
        · simpa using Nat.succ_lt_succ hlt
        · simpa using hget

/-- A found first-byte position from offset 0 is in range and holds the
byte. -/
theorem indexOfFrom_zero_found (l : List Nat) (b : Nat)
    (h : indexOfFrom l b 0 ≠ -1) :
    0 ≤ indexOfFrom l b 0 ∧ indexOfFrom l b 0 < l.length
      ∧ byteAt l (indexOfFrom l b 0) = some b := by
  unfold indexOfFrom at *
  have h0 : ¬((0 : Int) < 0) := by omega
  rw [if_neg h0] at *
  simp only [Int.toNat_zero, List.drop_zero] at *
  rcases hj : scanFor b l with _ | j
  · rw [hj] at h
    dsimp only at h
    exact absurd rfl h
  · dsimp only
    obtain ⟨hlt, hget⟩ := scanFor_some b l j hj
    refine ⟨by omega, by simpa using hlt, ?_⟩
    unfold byteAt
    rw [if_pos (by omega)]
    simpa using hget

/-- Unpacking a defined byte read. -/
theorem byteAt_some (l : List Nat) (i : Int) (x : Nat)
    (h : byteAt l i = some x) :
    0 ≤ i ∧ i.toNat < l.length ∧ l[i.toNat]? = some x := by
  unfold byteAt at h
  by_cases hi : 0 ≤ i
  · rw [if_pos hi] at h
    refine ⟨hi, ?_, h⟩
    by_contra hlen
    rw [List.getElem?_eq_none (by omega)] at h
    exact absurd h (by simp)
  · rw [if_neg hi] at h
    exact absurd h (by simp)

/-- Extending a take by one known element. -/
theorem take_succ_of_read (l : List Nat) (n : Nat) (x : Nat)
    (h : l[n]? = some x) : l.take (n + 1) = l.take n ++ [x] := by
  rw [List.take_succ, h]
  rfl

/-- In range, the optional read returns the defaulted read. -/
theorem read_eq_some_getD (l : List Nat) (n : Nat) (h : n < l.length) :
    l[n]? = some (l.getD n 0) := by
  rcases hx : l[n]? with _ | x
  · rw [List.getElem?_eq_none_iff] at hx
    omega
  · rw [List.getD_eq_getElem?_getD, hx]
    rfl

/-- Characterization of the start-pattern verification loop on aligned
calls (the fuel equals the remaining pattern length and the verified
pattern prefix sits immediately before the cursor): either the loop runs
to completion, in which case the full pattern occurs contiguously in the
stack; or it runs out of stack with the partial match recorded in the
counters; or it mismatches at some position at or after the entry cursor
and resets the match counter. -/
theorem fspLoop_char (pat stack : List Nat) :
    ∀ (k : Nat) (mc idx : Int),
      0 ≤ mc → mc ≤ idx → idx ≤ (stack.length : Int) →
      k = ((pat.length : Int) - mc).toNat →
      (stack.take idx.toNat).drop (idx - mc).toNat = pat.take mc.toNat →
      ((fspLoop pat stack mc idx k).2.2 = true ∧ ∃ a b, stack = a ++ pat ++ b)
      ∨ (∃ mc' idx',
          fspLoop pat stack mc idx k = (mc', idx', false)
          ∧ idx' = (stack.length : Int) ∧ 0 ≤ mc' ∧ mc' < (pat.length : Int)
          ∧ mc' ≤ idx'
          ∧ stack.drop (idx' - mc').toNat = pat.take mc'.toNat)
      ∨ (∃ idx',
          fspLoop pat stack mc idx k = (0, idx', false)
          ∧ idx ≤ idx' ∧ idx' < (stack.length : Int)) := by
  intro k
  induction k with
  | zero =>
    intro mc idx h0 h1 h2 hk hslice
    left
    refine ⟨rfl, ?_⟩
    have hple : (pat.length : Int) ≤ mc := by omega
    have htake : pat.take mc.toNat = pat := List.take_of_length_le (by omega)
    have hsub : stack.take idx.toNat
        = stack.take (idx - mc).toNat ++ pat := by
      conv_lhs => rw [← List.take_append_drop (idx - mc).toNat (stack.take idx.toNat)]
      rw [List.take_take, min_eq_left (by omega), hslice, htake]
    refine ⟨stack.take (idx - mc).toNat, stack.drop idx.toNat, ?_⟩
    conv_lhs => rw [← List.take_append_drop idx.toNat stack, hsub]
  | succ k ih =>
    intro mc idx h0 h1 h2 hk hslice
    by_cases hg : idx ≥ (stack.length : Int)
    · have heq : fspLoop pat stack mc idx (k + 1) = (mc, idx, false) := by
        rw [fspLoop, if_pos hg]
      right
      left
      refine ⟨mc, idx, heq, by omega, h0, by omega, h1, ?_⟩
      have hidx : idx.toNat = stack.length := by omega
      rw [← hslice, hidx, List.take_length]
    · by_cases hb : byteAt stack idx = some (pat.getD mc.toNat 0)
      · have heq : fspLoop pat stack mc idx (k + 1)
            = fspLoop pat stack (mc + 1) (idx + 1) k := by
          rw [fspLoop, if_neg hg, if_pos hb]
        obtain ⟨hi0, hilen, hread⟩ := byteAt_some stack idx _ hb
        have hmcp : mc < (pat.length : Int) := by omega
        have hslice' : (stack.take (idx + 1).toNat).drop ((idx + 1) - (mc + 1)).toNat
            = pat.take (mc + 1).toNat := by
          have e1 : (idx + 1).toNat = idx.toNat + 1 := by omega
          have e2 : (idx + 1) - (mc + 1) = idx - mc := by ring
          rw [e1, e2, take_succ_of_read stack idx.toNat _ hread,
            List.drop_append_of_le_length (by
              rw [List.length_take]
              omega),
            hslice]
          have e3 : (mc + 1).toNat = mc.toNat + 1 := by omega
          rw [e3, take_succ_of_read pat mc.toNat _
            (read_eq_some_getD pat mc.toNat (by omega))]
        rcases ih (mc + 1) (idx + 1) (by omega) (by omega) (by omega) (by omega)
            hslice' with hA | hB | hC
        · left
          rw [heq]
          exact hA
        · right
          left
          rw [heq]
          obtain ⟨mc', idx', hres, hrest⟩ := hB
          exact ⟨mc', idx', hres, hrest⟩
        · right
          right
          rw [heq]
          obtain ⟨idx', hres, hge, hlt⟩ := hC
          exact ⟨idx', hres, by omega, hlt⟩
      · have heq : fspLoop pat stack mc idx (k + 1) = (0, idx, false) := by
          rw [fspLoop, if_neg hg, if_neg hb]
        right
        right
        exact ⟨idx, heq, le_refl idx, by omega⟩

/-- Characterization of findStartPattern from an aligned
SEARCHING_START_PATTERN state over a stack in which the start pattern does
not occur: either the scan stalls at the end of the stack with a partial
match recorded (the verified prefix bytes are the last matchCount bytes of
the stack), or it stops at a mismatch position at least 1, resetting the
counter. A full match is impossible. -/
theorem findStartPattern_char (cfg : Options) (stack : List Nat) (mc : Int)
    (hocc : occursIn cfg.startPattern stack = false)
    (h0 : 0 ≤ mc) (h1 : mc < (cfg.startPattern.length : Int))
    (h2 : mc < (stack.length : Int))
    (hslice : stack.take mc.toNat = cfg.startPattern.take mc.toNat) :
    (∃ mc' : Int,
      findStartPattern cfg ⟨stack, .SEARCHING_START_PATTERN, mc, mc⟩
        = ⟨stack, .SEARCHING_START_PATTERN, mc', (stack.length : Int)⟩
      ∧ 0 ≤ mc' ∧ mc' < (cfg.startPattern.length : Int)
      ∧ mc' ≤ (stack.length : Int)
      ∧ stack.drop ((stack.length : Int) - mc').toNat
          = cfg.startPattern.take mc'.toNat)
    ∨ (∃ idx' : Int,
      findStartPattern cfg ⟨stack, .SEARCHING_START_PATTERN, mc, mc⟩
        = ⟨stack, .SEARCHING_START_PATTERN, 0, idx'⟩
      ∧ 1 ≤ idx' ∧ idx' < (stack.length : Int)) := by
  have hpatpos : 0 < cfg.startPattern.length := by omega
  unfold findStartPattern
  dsimp only
  by_cases hmc : mc = 0
  · subst hmc
    rw [if_pos rfl]
    by_cases hi : indexOfFrom stack (cfg.startPattern.getD 0 0) 0 = -1
    · rw [if_pos hi]
      dsimp only
      left
      refine ⟨0, rfl, le_refl 0, by omega, by omega, ?_⟩
      have hd : (((stack.length : Int)) - 0).toNat = stack.length := by omega
      rw [hd, List.drop_length]
      simp
    · rw [if_neg hi]
      dsimp only
      obtain ⟨hj0, hjlen, hjbyte⟩ := indexOfFrom_zero_found stack
        (cfg.startPattern.getD 0 0) hi
      obtain ⟨hb0, hblen, hbread⟩ := byteAt_some stack
        (indexOfFrom stack (cfg.startPattern.getD 0 0) 0) _ hjbyte
      set i := indexOfFrom stack (cfg.startPattern.getD 0 0) 0 with hidef
      have hslice1 : (stack.take (i + 1).toNat).drop ((i + 1) - 1).toNat
          = cfg.startPattern.take (1 : Int).toNat := by
        have e1 : (i + 1).toNat = i.toNat + 1 := by omega
        have e2 : (i + 1) - 1 = i := by ring
        rw [e1, e2, take_succ_of_read stack i.toNat _ hbread,
          List.drop_append_of_le_length (by rw [List.length_take]; omega)]
        have e3 : (stack.take i.toNat).drop i.toNat = [] :=
          List.drop_eq_nil_of_le (by rw [List.length_take]; omega)
        rw [e3]
        have e4 : (1 : Int).toNat = 0 + 1 := by omega
        rw [e4, take_succ_of_read cfg.startPattern 0 _
          (read_eq_some_getD cfg.startPattern 0 hpatpos)]
        rfl
      rcases fspLoop_char cfg.startPattern stack
          (((cfg.startPattern.length : Int) - 1).toNat) 1 (i + 1)
          (by omega) (by omega) (by omega) rfl hslice1 with hA | hB | hC
      · obtain ⟨_, a, b, hab⟩ := hA
        rw [(occursIn_iff cfg.startPattern stack).mpr ⟨a, b, hab⟩] at hocc
        exact absurd hocc (by simp)
      · obtain ⟨mc', idx', hres, hlen', hm0, hmlt, hmle, hdrop⟩ := hB
        rw [hres]
        dsimp only
        left
        refine ⟨mc', ?_, hm0, hmlt, by omega, ?_⟩
        · rw [hlen']
        · rw [← hdrop, hlen']
      · obtain ⟨idx', hres, hge, hlt⟩ := hC
        rw [hres]
        dsimp only
        right
        exact ⟨idx', rfl, by omega, hlt⟩
  · rw [if_neg (by simpa using hmc)]
    dsimp only
    have hslice2 : (stack.take mc.toNat).drop (mc - mc).toNat
        = cfg.startPattern.take mc.toNat := by
      have e1 : (mc - mc).toNat = 0 := by omega
      rw [e1, List.drop_zero, hslice]
    rcases fspLoop_char cfg.startPattern stack
        (((cfg.startPattern.length : Int) - mc).toNat) mc mc
        h0 (le_refl mc) (by omega) rfl hslice2 with hA | hB | hC
    · obtain ⟨_, a, b, hab⟩ := hA
      rw [(occursIn_iff cfg.startPattern stack).mpr ⟨a, b, hab⟩] at hocc
      exact absurd hocc (by simp)
    · obtain ⟨mc', idx', hres, hlen', hm0, hmlt, hmle, hdrop⟩ := hB
      rw [hres]
      dsimp only
      left
      refine ⟨mc', ?_, hm0, hmlt, by omega, ?_⟩
      · rw [hlen']
      · rw [← hdrop, hlen']
    · obtain ⟨idx', hres, hge, hlt⟩ := hC
      rw [hres]
      dsimp only
      right
      exact ⟨idx', rfl, by omega, hlt⟩

/-- The transform loop exits immediately when the cursor has reached the
end of the stack, whatever the fuel. -/
theorem transformLoop_exit (cfg : Options) (res : Resolver) (fuel : Nat)
    (e : Engine) (hg : ¬ e.stackIndex < (e.stack.length : Int)) :
    transformLoop cfg res fuel e = .ok e [] := by
  cases fuel with
  | zero => rw [transformLoop, if_neg hg]
  | succ f => rw [transformLoop, if_neg hg]

/-- Driving the transform loop from an aligned SEARCHING_START_PATTERN
state over a stack without any start-pattern occurrence releases the whole
stack except for a partial start-pattern match kept pending at the end,
and never changes a byte: the loop finishes (within fuel at least the
stack length), the released output followed by the kept partial prefix is
exactly the old stack, and the final state is again aligned. -/
theorem loop_no_pattern (cfg : Options) (res : Resolver) :
    ∀ (n : Nat) (stack : List Nat), stack.length ≤ n →
      ∀ (fuel : Nat) (mc : Int),
      occursIn cfg.startPattern stack = false →
      0 ≤ mc → mc < (cfg.startPattern.length : Int) →
      mc ≤ (stack.length : Int) →
      stack.take mc.toNat = cfg.startPattern.take mc.toNat →
      stack.length ≤ fuel →
      ∃ (mc' : Int) (out : List Nat),
        transformLoop cfg res fuel ⟨stack, .SEARCHING_START_PATTERN, mc, mc⟩
          = .ok ⟨cfg.startPattern.take mc'.toNat, .SEARCHING_START_PATTERN, mc', mc'⟩
              out
        ∧ out ++ cfg.startPattern.take mc'.toNat = stack
        ∧ 0 ≤ mc' ∧ mc' < (cfg.startPattern.length : Int)
        ∧ ((cfg.startPattern.take mc'.toNat).length : Int) = mc' := by
  intro n
  induction n with
  | zero =>
    intro stack hn fuel mc hocc h0 h1 h2 hslice hfuel
    have hstack : stack = [] := List.length_eq_zero.mp (by omega)
    subst hstack
    have hmc : mc = 0 := by
      simp only [List.length_nil] at h2
      omega
    subst hmc
    refine ⟨0, [], ?_, by simp, le_refl 0, by omega, by simp⟩
    rw [transformLoop_exit cfg res fuel _ (by simp)]
    simp [Engine.mk.injEq]
  | succ n ihn =>
    intro stack hn fuel mc hocc h0 h1 h2 hslice hfuel
    by_cases hguard : mc < (stack.length : Int)
    · have hlenpos : 0 < stack.length := by omega
      cases fuel with
      | zero => omega
      | succ f =>
        rcases findStartPattern_char cfg stack mc hocc h0 h1 hguard hslice with
          ⟨mc', hfsp, hm0, hmlt, hmle, hdrop⟩ | ⟨idx', hfsp, hge, hlt⟩
        · have hdrop' : stack.drop (stack.length - mc'.toNat)
              = cfg.startPattern.take mc'.toNat := by
            have e1 : ((stack.length : Int) - mc').toNat
                = stack.length - mc'.toNat := by omega
            rw [← e1, hdrop]
          have hstep : transformStep cfg res
              ⟨stack, .SEARCHING_START_PATTERN, mc, mc⟩
              = .cont ⟨cfg.startPattern.take mc'.toNat,
                  .SEARCHING_START_PATTERN, mc', mc'⟩
                  (stack.take (stack.length - mc'.toNat)) := by
            unfold transformStep
            dsimp only
            rw [hfsp]
            dsimp only
            by_cases hz : (stack.length : Int) - mc' ≤ 0
            · rw [releaseStack, if_pos hz]
              have hz2 : stack.length - mc'.toNat = 0 := by omega
              rw [hz2] at hdrop' ⊢
              simp only [List.drop_zero] at hdrop'
              simp only [List.take_zero]
              rw [StepOut.cont.injEq, Engine.mk.injEq]
              refine ⟨⟨hdrop', rfl, rfl, by omega⟩, rfl⟩
            · rw [releaseStack_pos _ _ (by omega)]
              dsimp only
              rw [StepOut.cont.injEq, Engine.mk.injEq]
              have e1 : ((stack.length : Int) - mc').toNat
                  = stack.length - mc'.toNat := by omega
              refine ⟨⟨by rw [e1, hdrop'], rfl, rfl, by omega⟩, by rw [e1]⟩
          rw [transformLoop_succ_cont cfg res f _ _ _ hguard hstep]
          have hexitlen : ((cfg.startPattern.take mc'.toNat).length : Int) = mc' := by
            rw [List.length_take]
            omega
          rw [transformLoop_exit cfg res f _ (by
            dsimp only
            omega)]
          refine ⟨mc', stack.take (stack.length - mc'.toNat) ++ [], rfl, ?_,
            hm0, hmlt, hexitlen⟩
          rw [List.append_nil, ← hdrop', List.take_append_drop]
        · have hstep : transformStep cfg res
              ⟨stack, .SEARCHING_START_PATTERN, mc, mc⟩
              = .cont ⟨stack.drop idx'.toNat, .SEARCHING_START_PATTERN, 0, 0⟩
                  (stack.take idx'.toNat) := by
            unfold transformStep
            dsimp only
            rw [hfsp]
            dsimp only
            rw [releaseStack_pos _ _ (by omega)]
            dsimp only
            rw [StepOut.cont.injEq, Engine.mk.injEq]
            refine ⟨⟨by rw [show idx' - 0 = idx' from by ring], rfl, rfl, by ring⟩,
              by rw [show idx' - 0 = idx' from by ring]⟩
          have hocc' : occursIn cfg.startPattern (stack.drop idx'.toNat) = false := by
            refine occursIn_false_of_infix cfg.startPattern
              (stack.take idx'.toNat) (stack.drop idx'.toNat) [] ?_
            rw [List.append_nil, List.take_append_drop]
            exact hocc
          have hlen' : (stack.drop idx'.toNat).length ≤ n := by
            rw [List.length_drop]
            omega
          have hfuel' : (stack.drop idx'.toNat).length ≤ f := by
            rw [List.length_drop]
            omega
          obtain ⟨mc'', out'', hloop, hcat, hm0'', hmlt'', hlen''⟩ :=
            ihn (stack.drop idx'.toNat) hlen' f 0 hocc' (le_refl 0) (by omega)
              (by simp) (by simp) hfuel'
          rw [transformLoop_succ_cont cfg res f _ _ _ hguard hstep, hloop]
          refine ⟨mc'', stack.take idx'.toNat ++ out'', rfl, ?_, hm0'', hmlt'',
            hlen''⟩
          rw [List.append_assoc, hcat, List.take_append_drop]
    · have hmc : mc = (stack.length : Int) := by omega
      have htkall : stack.take mc.toNat = stack :=
        List.take_of_length_le (by omega)
      refine ⟨mc, [], ?_, ?_, h0, h1, ?_⟩
      · rw [transformLoop_exit cfg res fuel _ (by dsimp only; omega)]
        rw [Outcome.ok.injEq, Engine.mk.injEq]
        refine ⟨⟨?_, rfl, rfl, rfl⟩, rfl⟩
        rw [← hslice, htkall]
      · rw [List.nil_append, ← hslice, htkall]
      · rw [List.length_take]
        omega

/-- Feeding chunks to the engine when the start pattern occurs nowhere in
the pending prefix plus remaining input: every chunk phase finishes, all
bytes come out unchanged and in order, and the engine again holds only a
partial start-pattern prefix. -/
theorem runChunks_no_pattern (cfg : Options) (res : Resolver) (fuel : Nat) :
    ∀ (chunks : List (List Nat)) (P : List Nat) (mc : Int),
      occursIn cfg.startPattern (P ++ chunks.flatten) = false →
      0 ≤ mc → mc < (cfg.startPattern.length : Int) →
      P = cfg.startPattern.take mc.toNat →
      ((P.length : Int)) = mc →
      (∀ c ∈ chunks, c.length + cfg.startPattern.length ≤ fuel) →
      ∃ (mc' : Int) (out : List Nat) (P' : List Nat),
        runChunks cfg res fuel ⟨P, .SEARCHING_START_PATTERN, mc, mc⟩ chunks
          = .ok ⟨P', .SEARCHING_START_PATTERN, mc', mc'⟩ out
        ∧ out ++ P' = P ++ chunks.flatten
        ∧ P' = cfg.startPattern.take mc'.toNat := by
  intro chunks
  induction chunks with
  | nil =>
    intro P mc hocc h0 h1 hP hPlen hfuel
    exact ⟨mc, [], P, rfl, by simp, hP⟩
  | cons c cs ih =>
    intro P mc hocc h0 h1 hP hPlen hfuel
    have hoccPc : occursIn cfg.startPattern (P ++ c) = false := by
      refine occursIn_false_of_infix cfg.startPattern [] (P ++ c) cs.flatten ?_
      rw [List.nil_append]
      rw [List.flatten_cons, ← List.append_assoc] at hocc
      exact hocc
    have hslice : (P ++ c).take mc.toNat = cfg.startPattern.take mc.toNat := by
      have e1 : mc.toNat = P.length := by omega
      rw [e1, List.take_left, ← e1]
      exact hP
    obtain ⟨mc1, out1, hloop, hcat1, hm01, hmlt1, hlen1⟩ :=
      loop_no_pattern cfg res (P ++ c).length (P ++ c) (le_refl _) fuel mc
        hoccPc h0 h1 (by rw [List.length_append]; omega) hslice
        (by
          rw [List.length_append]
          have := hfuel c (by simp)
          omega)
    rw [runChunks]
    unfold processChunk
    dsimp only
    rw [hloop]
    dsimp only
    have hoccnext : occursIn cfg.startPattern
        (cfg.startPattern.take mc1.toNat ++ cs.flatten) = false := by
      refine occursIn_false_of_infix cfg.startPattern out1
        (cfg.startPattern.take mc1.toNat ++ cs.flatten) [] ?_
      rw [List.append_nil, ← List.append_assoc, hcat1,
        List.append_assoc, ← List.flatten_cons]
      exact hocc
    obtain ⟨mc2, out2, P2, hrc, hcat2, hP2⟩ :=
      ih (cfg.startPattern.take mc1.toNat) mc1 hoccnext hm01 hmlt1 rfl hlen1
        (fun d hd => hfuel d (by simp [hd]))
    rw [hrc]
    dsimp only [Outcome.prependOut]
    refine ⟨mc2, out1 ++ out2, P2, rfl, ?_, hP2⟩
    rw [List.append_assoc, hcat2, ← List.append_assoc, hcat1,
      List.append_assoc, ← List.flatten_cons]

/-- C6. Identity on pattern-free input: for every configuration, resolver
and way of splitting the input into chunks, if the start pattern occurs
nowhere in the input bytes, processing all chunks and finishing emits the
input unchanged, byte for byte (the fuel hypothesis grants each loop the
iterations it needs, at most the chunk length plus the pattern length). -/
theorem C6_identity_pattern_free :
    ∀ (cfg : Options) (res : Resolver) (fuel : Nat) (chunks : List (List Nat)),
      occursIn cfg.startPattern chunks.flatten = false →
      (∀ c ∈ chunks, c.length + cfg.startPattern.length ≤ fuel) →
      run cfg res fuel chunks = .done chunks.flatten := by
  intro cfg res fuel chunks hocc hfuel
  have hpat : 0 < cfg.startPattern.length := by
    by_contra hp
    have hp0 : cfg.startPattern = [] := List.length_eq_zero.mp (by omega)
    rw [(occursIn_iff cfg.startPattern chunks.flatten).mpr
      ⟨[], chunks.flatten, by rw [hp0]; rfl⟩] at hocc
    exact absurd hocc (by simp)
  obtain ⟨mc', out, P', hrc, hcat, hP'⟩ :=
    runChunks_no_pattern cfg res fuel chunks [] 0 (by simpa using hocc)
      (le_refl 0) (by omega) (by simp) (by simp) hfuel
  unfold run
  rw [show initialEngine
      = (⟨[], .SEARCHING_START_PATTERN, 0, 0⟩ : Engine) from rfl, hrc]
  dsimp only
  rw [flushOutput_eq]
  dsimp only
  rw [hcat, List.nil_append]

/-- Witness for C6: the two chunks holding a letter plus a lone opening
brace, then another letter, contain no full start pattern and pass
through unchanged. -/
theorem C6_witness :
    run defaultOptions resolverNone 10 [[97, 123], [98]] = .done [97, 123, 98] :=
  C6_identity_pattern_free defaultOptions resolverNone 10 [[97, 123], [98]]
    (by decide) (by decide)

end TemplateReplace
